import Mathlib

/-
Verification of the reconciliation engine and manifest handling of
jvkec/aws-s3sync, shallowly embedded from the Go sources.

The embedding conventions:
* `time.Time` values are modelled as integers; `t1.After t2` is `t2 < t1`.
* a Go `map[string]FileInfo` is modelled as an optional association list
  in iteration order (`none` models a nil map, which Go treats as empty
  for reads and iteration); the map invariant "keys unique" appears as a
  `Nodup` hypothesis where a proof needs it.
* fallible or panicking code returns `Option`.
-/

namespace S3Sync

/-- Metadata record for one file, from `fileutils.FileInfo`
(`src/internal/fileutils/fileutils.go`). -/
structure FileInfo where
  path : String
  size : Int
  modTime : Int
  checksum : String
  relativePath : String
deriving DecidableEq, Repr

/-- Sync operation tag, from `sync.SyncOp` and its four constants
(`SyncOpUpload`, `SyncOpDownload`, `SyncOpDelete`, `SyncOpSkip`). -/
inductive SyncOp where
  | upload
  | download
  | delete
  | skip
deriving DecidableEq, Repr

/-- One decided action, from `sync.SyncAction`. -/
structure SyncAction where
  operation : SyncOp
  file : FileInfo
  relativePath : String
  reason : String
deriving DecidableEq, Repr

/-- Sync state record, from `sync.Manifest`.  `files` models the Go map
`Files map[string]fileutils.FileInfo` as an optional association list in
iteration order; `none` models a nil map.  The `LastSync` and `Prefix`
fields are carried by the Go struct but never read by the functions
verified here, so they are omitted. -/
structure Manifest where
  files : Option (List (String × FileInfo))
  bucket : String
deriving DecidableEq, Repr

/-- Go map indexing `m[k]` on an association list: the unique (first)
entry with the given key, if any. -/
def lookupFile : List (String × FileInfo) → String → Option FileInfo
  | [], _ => none
  | e :: rest, p => if e.1 = p then some e.2 else lookupFile rest p

/-- The entry list of a manifest's `Files` map; a nil map reads and
iterates as empty in Go. -/
def Manifest.entries (m : Manifest) : List (String × FileInfo) :=
  m.files.getD []

/-- Go map indexing `m.Files[p]`. -/
def Manifest.get (m : Manifest) (p : String) : Option FileInfo :=
  lookupFile m.entries p

/-- The key set of a manifest's `Files` map, in iteration order. -/
def Manifest.keys (m : Manifest) : List String :=
  m.entries.map Prod.fst

/-- Body of the first loop of `sync.ComputeSyncActions` (`for relativePath,
localFile := range localFiles`): the single action appended for a local
entry.  Each branch of the Go code appends exactly one action, so the loop
body is a total function. -/
def decideLocalAction (remoteFiles lastKnownFiles : List (String × FileInfo))
    (relativePath : String) (localFile : FileInfo) : SyncAction :=
  match lookupFile remoteFiles relativePath with
  | none =>
    match lookupFile lastKnownFiles relativePath with
    | none => ⟨.upload, localFile, relativePath, "new local file"⟩
    | some _ => ⟨.upload, localFile, relativePath, "deleted remotely, exists locally"⟩
  | some remoteFile =>
    if localFile.checksum ≠ remoteFile.checksum then
      match lookupFile lastKnownFiles relativePath with
      | some lastKnownFile =>
        if localFile.checksum ≠ lastKnownFile.checksum ∧ remoteFile.checksum = lastKnownFile.checksum then
          ⟨.upload, localFile, relativePath, "local file modified"⟩
        else if localFile.checksum = lastKnownFile.checksum ∧ remoteFile.checksum ≠ lastKnownFile.checksum then
          ⟨.download, remoteFile, relativePath, "remote file modified"⟩
        else if remoteFile.modTime < localFile.modTime then
          ⟨.upload, localFile, relativePath, "local file newer (conflict resolution)"⟩
        else
          ⟨.download, remoteFile, relativePath, "remote file newer (conflict resolution)"⟩
      | none =>
        if remoteFile.modTime < localFile.modTime then
          ⟨.upload, localFile, relativePath, "local file newer"⟩
        else
          ⟨.download, remoteFile, relativePath, "remote file newer"⟩
    else
      ⟨.skip, localFile, relativePath, "files identical"⟩

/-- Body of the second loop of `sync.ComputeSyncActions` (`for relativePath,
remoteFile := range remoteFiles`), for a remote entry whose path has no
local entry. -/
def decideRemoteAction (lastKnownFiles : List (String × FileInfo))
    (relativePath : String) (remoteFile : FileInfo) : SyncAction :=
  match lookupFile lastKnownFiles relativePath with
  | some _ => ⟨.skip, remoteFile, relativePath, "deleted locally"⟩
  | none => ⟨.download, remoteFile, relativePath, "new remote file"⟩

/-- The three-way diff `sync.ComputeSyncActions`, on (already dereferenced)
manifests: one action per local entry, then one per remote entry that has
no local entry. -/
def computeSyncActions (localManifest remoteManifest lastKnownManifest : Manifest) :
    List SyncAction :=
  let localFiles := localManifest.entries
  let remoteFiles := remoteManifest.entries
  let lastKnownFiles := lastKnownManifest.entries
  localFiles.map (fun e => decideLocalAction remoteFiles lastKnownFiles e.1 e.2) ++
    remoteFiles.filterMap (fun e =>
      if (lookupFile localFiles e.1).isSome then none
      else some (decideRemoteAction lastKnownFiles e.1 e.2))

/-- Go pointer semantics of `ComputeSyncActions(localManifest,
remoteManifest, lastKnownManifest *Manifest)`: the function immediately
reads `localManifest.Files`, `remoteManifest.Files` and
`lastKnownManifest.Files`, so a nil `*Manifest` argument dereferences a nil
pointer and panics (modelled as `none`); non-nil pointers always produce an
action list. -/
def computeSyncActionsPtr (localManifest remoteManifest lastKnownManifest : Option Manifest) :
    Option (List SyncAction) :=
  match localManifest, remoteManifest, lastKnownManifest with
  | some lm, some rm, some lkm => some (computeSyncActions lm rm lkm)
  | _, _, _ => none

/-- Sync section of the application configuration, from `config.SyncConfig`. -/
structure SyncConfig where
  defaultBucket : String
  excludeFiles : List String
  includeFiles : List String
  maxRetries : Int
  chunkSize : Int
deriving DecidableEq, Repr

/-- The default sync configuration built by `config.LoadConfig` when no
config file exists. -/
def defaultSyncConfig : SyncConfig :=
  ⟨"", [".DS_Store", "Thumbs.db", ".git/*"], [], 3, 8 * 1024 * 1024⟩

/-- One regular file on disk under a sync root, as visited by
`filepath.Walk`: `relSegments` is its nonempty list of path segments below
the root (the last segment is the leaf name `filepath.Base` returns), and
`checksum` is the SHA-256 hex string `calculateFileChecksum` computes from
its content (the hash itself is opaque to everything verified here).
Directory entries are skipped by the walk callback (`info.IsDir()`), so the
tree is modelled as its list of regular files in walk order. -/
structure DiskFile where
  relSegments : List String
  size : Int
  modTime : Int
  checksum : String
deriving DecidableEq, Repr

/-- The leaf name of a disk file, `filepath.Base(path)`. -/
def leafName (f : DiskFile) : String :=
  f.relSegments.getLastD ""

/-- The hidden-file test of `ScanDirectoryWithInfo`:
`filepath.Base(path)[0] == '.'`, i.e. the first character of the file's
own leaf name is the marker character (the walk hands the callback a
nonempty base name, so the empty case is unreachable). -/
def hiddenLeaf (f : DiskFile) : Bool :=
  match (leafName f).toList with
  | [] => false
  | c :: _ => c = '.'

/-- The root-relative slash-separated path `filepath.Rel(rootDir, path)`
returns for a disk file. -/
def relPathOf (f : DiskFile) : String :=
  String.intercalate "/" f.relSegments

/-- The directory scan `fileutils.ScanDirectoryWithInfo`, on a tree whose
root exists: walks every regular file under the root (including files
inside dot-directories, which the walk never prunes), skips exactly those
whose own leaf name begins with the marker character, and records path,
size, modification time, checksum and relative path.  No configured
exclusion pattern is consulted — the function takes no configuration. -/
def scanDirectoryWithInfo (rootDir : String) (tree : List DiskFile) : List FileInfo :=
  tree.filterMap fun f =>
    if hiddenLeaf f then none
    else some ⟨rootDir ++ "/" ++ relPathOf f, f.size, f.modTime, f.checksum, relPathOf f⟩

/-- The manifest builder `sync.ManifestManager.BuildLocalManifest`: scans
the local directory and keys the scanned records by relative path. -/
def buildLocalManifest (rootDir : String) (tree : List DiskFile) : Manifest :=
  ⟨some ((scanDirectoryWithInfo rootDir tree).map fun fi => (fi.relativePath, fi)), ""⟩

/-- A filesystem operation, for tracing what `sync.ManifestManager.SaveManifest`
does to disk. -/
inductive FsOp where
  | mkdirAll : String → FsOp
  | writeFile : String → String → FsOp
  | rename : String → String → FsOp
deriving DecidableEq, Repr

/-- The filesystem operations `SaveManifest` performs, in order:
`fileutils.CreateDirIfNotExists` on the manifest directory
(`manifestDir = filepath.Dir(manifestPath)`), then a single direct
`os.WriteFile(m.manifestPath, data, 0644)` of the serialized manifest.
No temporary file and no rename are involved. -/
def saveManifestOps (manifestDir manifestPath data : String) : List FsOp :=
  [.mkdirAll manifestDir, .writeFile manifestPath data]

/-- Modelled from the spec: "write via a scoped temporary-then-rename or
equivalent atomic replace" — an atomic save never writes the final path
directly, and installs the new data by renaming a distinct scratch path
onto the final path. -/
def atomicReplaceSaveSpec (ops : List FsOp) (finalPath : String) : Prop :=
  (∀ d, FsOp.writeFile finalPath d ∉ ops) ∧
    ∃ tmp, tmp ≠ finalPath ∧ FsOp.rename tmp finalPath ∈ ops

/-- Crash model of `os.WriteFile(path, data)`: the file is opened with
truncation and written sequentially, so at any moment the path holds its
prior content (crash before the open) or some prefix of `data` (crash
after the open).  The listed values are the contents observable at the
written path after a crash. -/
def writeFileCrashStates (old : Option String) (data : String) : List (Option String) :=
  old :: (List.range (data.length + 1)).map (fun k => some (String.mk (data.toList.take k)))

/-- Contents of the manifest path observable after a crash at any point of
`SaveManifest`: the `MkdirAll` step never touches the manifest file, and the
direct `os.WriteFile` step follows the crash model above. -/
def saveManifestCrashStates (old : Option String) (data : String) : List (Option String) :=
  writeFileCrashStates old data

/-- Outcome of a push or pull run: the manifest handed to `SaveManifest`
(`none` when the run returns without saving), and the error the run
returns, if any. -/
structure RunResult where
  saved : Option Manifest
  err : Option String
deriving DecidableEq, Repr

/-- The transfer loop shared by `performPush` and `performPull`
(`src/cmd/s3sync/main.go`): actions are traversed in order, actions whose
operation is not the transferred one (`skip` in particular) are no-ops,
and the first failed transfer aborts the run with an error naming the
path.  `ok p` tells whether the transfer collaborator succeeds for
relative path `p`. -/
def runTransfers (op : SyncOp) (ok : String → Bool) : List SyncAction → Option String
  | [] => none
  | a :: rest =>
    if a.operation = op then
      if ok a.relativePath then runTransfers op ok rest
      else some a.relativePath
    else runTransfers op ok rest

/-- The common tail of `performPush` and `performPull` once the actions
are computed: count the actions carrying the transferred operation, return
without saving in dry-run mode, return without saving when the count is
zero ("everything up to date!"), abort without saving on the first failed
transfer, and otherwise hand `toSave` to `SaveManifest`. -/
def finishRun (actions : List SyncAction) (op : SyncOp) (ok : String → Bool)
    (dryRun : Bool) (toSave : Manifest) : RunResult :=
  let count := (actions.filter (fun a => a.operation = op)).length
  if dryRun then ⟨none, none⟩
  else if count = 0 then ⟨none, none⟩
  else
    match runTransfers op ok actions with
    | some p => ⟨none, some p⟩
    | none => ⟨some toSave, none⟩

/-- The decision-and-transfer phase of `performPush`
(`src/cmd/s3sync/main.go:355-451`), after the three inventories are in
hand: set the bucket on the local manifest, compute the actions, and run
the upload loop; on success the manifest saved is the local inventory with
the bucket set. -/
def performPush (localScan remoteManifest lastManifest : Manifest) (bucketName : String)
    (uploadOk : String → Bool) (dryRun : Bool) : RunResult :=
  let localManifest : Manifest := { localScan with bucket := bucketName }
  finishRun (computeSyncActions localManifest remoteManifest lastManifest)
    SyncOp.upload uploadOk dryRun localManifest

/-- The decision-and-transfer phase of `performPull`
(`src/cmd/s3sync/main.go:453-554`), symmetric to `performPush`: the
actions are run through the download loop, and on success the manifest
saved is the remote inventory with the bucket set. -/
def performPull (localScan remoteManifest lastManifest : Manifest) (bucketName : String)
    (downloadOk : String → Bool) (dryRun : Bool) : RunResult :=
  let remoteWithBucket : Manifest := { remoteManifest with bucket := bucketName }
  finishRun (computeSyncActions localScan remoteWithBucket lastManifest)
    SyncOp.download downloadOk dryRun remoteWithBucket

/-- Concrete record for the path "a" with a local SHA-256 style checksum. -/
def fileShaA : FileInfo :=
  ⟨"/root/a", 1, 10, "sha256-of-a", "a"⟩

/-- Concrete record for the path "a" as listed from S3: the checksum field
carries the object's ETag (`ListObjects` in `src/internal/aws/client.go`
stores the trimmed ETag as `Checksum`), which is not a SHA-256 of the
content. -/
def fileEtagA : FileInfo :=
  ⟨"a", 1, 20, "etag-of-a", "a"⟩

/-- Concrete record for a second path "b". -/
def fileShaB : FileInfo :=
  ⟨"/root/b", 2, 11, "sha256-of-b", "b"⟩

/-- A manifest whose map holds only path "a" with the local checksum. -/
def manifestLocalA : Manifest :=
  ⟨some [("a", fileShaA)], "bkt"⟩

/-- A manifest whose map holds only path "a" with the remote ETag checksum. -/
def manifestRemoteA : Manifest :=
  ⟨some [("a", fileEtagA)], "bkt"⟩

/-- A manifest with an empty (non-nil) file map. -/
def emptyManifest : Manifest :=
  ⟨some [], ""⟩

/-- A remote manifest whose record for "a" carries the same checksum as
the local record (already in sync). -/
def manifestRemoteSameA : Manifest :=
  ⟨some [("a", fileShaA)], "bkt"⟩

/-- The manifest file of the tool itself, as a disk file inside the sync
root: `NewManifestManager` scopes it at `.s3sync/manifest.json` under the
local path, so its leaf name is "manifest.json" under the dot-directory
".s3sync". -/
def manifestDiskFile : DiskFile :=
  ⟨[".s3sync", "manifest.json"], 7, 5, "sha256-of-manifest"⟩

theorem lookupFile_isSome_iff : ∀ (es : List (String × FileInfo)) (p : String),
    (lookupFile es p).isSome ↔ p ∈ es.map Prod.fst
  | [], p => by simp [lookupFile]
  | e :: rest, p => by
    rw [lookupFile]
    by_cases h : e.1 = p
    · subst h
      simp
    · rw [if_neg h, List.map_cons, List.mem_cons, lookupFile_isSome_iff]
      constructor
      · exact fun hm => Or.inr hm
      · rintro (rfl | hm)
        · exact absurd rfl h
        · exact hm

theorem lookupFile_eq_none_iff (es : List (String × FileInfo)) (p : String) :
    lookupFile es p = none ↔ p ∉ es.map Prod.fst := by
  rw [← lookupFile_isSome_iff]
  cases lookupFile es p <;> simp

theorem lookupFile_eq_some_mem : ∀ {es : List (String × FileInfo)} {p : String} {v : FileInfo},
    lookupFile es p = some v → (p, v) ∈ es := by
  intro es
  induction es with
  | nil => intro p v h; simp [lookupFile] at h
  | cons e rest ih =>
    intro p v h
    rw [lookupFile] at h
    by_cases he : e.1 = p
    · rw [if_pos he] at h
      cases h
      rw [← he]
      exact List.mem_cons_self _ _
    · rw [if_neg he] at h
      exact List.mem_cons_of_mem _ (ih h)

theorem lookupFile_of_nodup_mem : ∀ {es : List (String × FileInfo)} {p : String} {v : FileInfo},
    (es.map Prod.fst).Nodup → (p, v) ∈ es → lookupFile es p = some v := by
  intro es
  induction es with
  | nil => intro p v _ h; simp at h
  | cons e rest ih =>
    intro p v hnd hmem
    rw [List.map_cons, List.nodup_cons] at hnd
    rw [lookupFile]
    rcases List.mem_cons.mp hmem with rfl | hm
    · rw [if_pos rfl]
    · have hp : p ∈ rest.map Prod.fst := List.mem_map.mpr ⟨(p, v), hm, rfl⟩
      have he : e.1 ≠ p := fun h => hnd.1 (h ▸ hp)
      rw [if_neg he]
      exact ih hnd.2 hm

theorem decideLocalAction_relativePath (r lk : List (String × FileInfo)) (p : String)
    (lf : FileInfo) : (decideLocalAction r lk p lf).relativePath = p := by
  unfold decideLocalAction
  repeat' split
  all_goals rfl

theorem decideRemoteAction_relativePath (lk : List (String × FileInfo)) (p : String)
    (rf : FileInfo) : (decideRemoteAction lk p rf).relativePath = p := by
  unfold decideRemoteAction
  split
  all_goals rfl

theorem mem_computeSyncActions_iff (l r lk : Manifest) (a : SyncAction) :
    a ∈ computeSyncActions l r lk ↔
      ((∃ e ∈ l.entries, a = decideLocalAction r.entries lk.entries e.1 e.2) ∨
        (∃ e ∈ r.entries, lookupFile l.entries e.1 = none ∧
          a = decideRemoteAction lk.entries e.1 e.2)) := by
  unfold computeSyncActions
  simp only [List.mem_append, List.mem_map, List.mem_filterMap]
  constructor
  · rintro (⟨e, he, rfl⟩ | ⟨e, he, hif⟩)
    · exact Or.inl ⟨e, he, rfl⟩
    · right
      refine ⟨e, he, ?_⟩
      split at hif
      · exact absurd hif (by simp)
      · rename_i hs
        refine ⟨Option.not_isSome_iff_eq_none.mp hs, ?_⟩
        exact (Option.some_inj.mp hif).symm
  · rintro (⟨e, he, rfl⟩ | ⟨e, he, hnone, rfl⟩)
    · exact Or.inl ⟨e, he, rfl⟩
    · right
      refine ⟨e, he, ?_⟩
      rw [hnone]
      rfl


theorem decideRemoteAction_of_known {lk : List (String × FileInfo)} {p : String}
    {w : FileInfo} (h : lookupFile lk p = some w) (rf : FileInfo) :
    decideRemoteAction lk p rf = ⟨.skip, rf, p, "deleted locally"⟩ := by
  unfold decideRemoteAction
  rw [h]

theorem decideRemoteAction_of_unknown {lk : List (String × FileInfo)} {p : String}
    (h : lookupFile lk p = none) (rf : FileInfo) :
    decideRemoteAction lk p rf = ⟨.download, rf, p, "new remote file"⟩ := by
  unfold decideRemoteAction
  rw [h]

theorem decideLocalAction_of_remote_none_known {r lk : List (String × FileInfo)} {p : String}
    {w : FileInfo} (hr : lookupFile r p = none) (hlk : lookupFile lk p = some w)
    (lf : FileInfo) :
    decideLocalAction r lk p lf = ⟨.upload, lf, p, "deleted remotely, exists locally"⟩ := by
  unfold decideLocalAction
  rw [hr, hlk]

/-- C4 counterexample: a nil local `*Manifest` makes `ComputeSyncActions`
dereference a nil pointer (a panic, modelled as `none`), so no action list
is returned, contrary to the claim that a nil inventory is treated as
empty and an action list always comes back. -/
theorem computeSyncActionsPtr_nil_local_no_list :
    computeSyncActionsPtr none (some emptyManifest) (some emptyManifest) = none ∧
      ∀ acts : List SyncAction,
        computeSyncActionsPtr none (some emptyManifest) (some emptyManifest) ≠ some acts :=
  ⟨rfl, fun _ h => Option.noConfusion h⟩

/-- C4 (amended): with non-nil `*Manifest` pointers, `ComputeSyncActions`
always returns an action list and cannot fail, and a nil `Files` map in
any of the three argument positions is treated exactly as an empty
inventory; only a nil `*Manifest` pointer itself escapes this and panics. -/
theorem computeSyncActions_total_nil_files_as_empty (l r lk : Manifest) :
    computeSyncActionsPtr (some l) (some r) (some lk) = some (computeSyncActions l r lk) ∧
      computeSyncActions ⟨none, l.bucket⟩ r lk = computeSyncActions ⟨some [], l.bucket⟩ r lk ∧
      computeSyncActions l ⟨none, r.bucket⟩ lk = computeSyncActions l ⟨some [], r.bucket⟩ lk ∧
      computeSyncActions l r ⟨none, lk.bucket⟩ = computeSyncActions l r ⟨some [], lk.bucket⟩ :=
  ⟨rfl, rfl, rfl, rfl⟩

/-- C5: for every path present in `last_known` and `remote` but absent
from `local`, `ComputeSyncActions` produces the action `skip` with reason
"deleted locally" — never `download` — regardless of fingerprints or
timestamps, and no other action mentions the path. -/
theorem computeSyncActions_respects_local_deletion (l r lk : Manifest) (p : String)
    (rf : FileInfo) (hl : l.get p = none) (hr : r.get p = some rf)
    (hlk : (lk.get p).isSome) :
    (∃ a ∈ computeSyncActions l r lk, a.relativePath = p ∧
      a.operation = SyncOp.skip ∧ a.reason = "deleted locally") ∧
      ∀ a ∈ computeSyncActions l r lk, a.relativePath = p →
        a.operation = SyncOp.skip ∧ a.reason = "deleted locally" := by
  rcases Option.isSome_iff_exists.mp hlk with ⟨w, hw⟩
  have hw' : lookupFile lk.entries p = some w := hw
  have hl' : lookupFile l.entries p = none := hl
  have hr' : lookupFile r.entries p = some rf := hr
  constructor
  · refine ⟨decideRemoteAction lk.entries p rf, ?_, ?_⟩
    · exact (mem_computeSyncActions_iff l r lk _).mpr
        (Or.inr ⟨(p, rf), lookupFile_eq_some_mem hr', hl', rfl⟩)
    · rw [decideRemoteAction_of_known hw']
      exact ⟨rfl, rfl, rfl⟩
  · intro a ha hpa
    rcases (mem_computeSyncActions_iff l r lk a).mp ha with ⟨e, he, rfl⟩ | ⟨e, he, _, rfl⟩
    · exfalso
      rw [decideLocalAction_relativePath] at hpa
      have : p ∈ l.entries.map Prod.fst := List.mem_map.mpr ⟨e, he, hpa⟩
      exact (lookupFile_eq_none_iff _ _).mp hl' this
    · rw [decideRemoteAction_relativePath] at hpa
      subst hpa
      rw [decideRemoteAction_of_known hw']
      exact ⟨rfl, rfl⟩

/-- C5 witness: with local empty, remote holding "a" (ETag record) and
last_known holding "a", the engine skips "a" with reason "deleted
locally". -/
theorem computeSyncActions_respects_local_deletion_witness :
    (∃ a ∈ computeSyncActions emptyManifest manifestRemoteA manifestLocalA,
      a.relativePath = "a" ∧ a.operation = SyncOp.skip ∧ a.reason = "deleted locally") ∧
      ∀ a ∈ computeSyncActions emptyManifest manifestRemoteA manifestLocalA,
        a.relativePath = "a" →
          a.operation = SyncOp.skip ∧ a.reason = "deleted locally" :=
  computeSyncActions_respects_local_deletion emptyManifest manifestRemoteA manifestLocalA
    "a" fileEtagA rfl rfl (by decide)

/-- C6: for every path present in `last_known` and `local` but absent from
`remote`, `ComputeSyncActions` produces the action `upload` with reason
"deleted remotely, exists locally" — the path is decided, never dropped,
and never with a delete or download operation. -/
theorem computeSyncActions_resurrects_remote_deletion (l r lk : Manifest) (p : String)
    (lf : FileInfo) (hl : l.get p = some lf) (hr : r.get p = none)
    (hlk : (lk.get p).isSome) :
    (∃ a ∈ computeSyncActions l r lk, a.relativePath = p ∧
      a.operation = SyncOp.upload ∧ a.reason = "deleted remotely, exists locally") ∧
      ∀ a ∈ computeSyncActions l r lk, a.relativePath = p →
        a.operation = SyncOp.upload ∧ a.reason = "deleted remotely, exists locally" := by
  rcases Option.isSome_iff_exists.mp hlk with ⟨w, hw⟩
  have hw' : lookupFile lk.entries p = some w := hw
  have hl' : lookupFile l.entries p = some lf := hl
  have hr' : lookupFile r.entries p = none := hr
  constructor
  · refine ⟨decideLocalAction r.entries lk.entries p lf, ?_, ?_⟩
    · exact (mem_computeSyncActions_iff l r lk _).mpr
        (Or.inl ⟨(p, lf), lookupFile_eq_some_mem hl', rfl⟩)
    · rw [decideLocalAction_of_remote_none_known hr' hw']
      exact ⟨rfl, rfl, rfl⟩
  · intro a ha hpa
    rcases (mem_computeSyncActions_iff l r lk a).mp ha with ⟨e, he, rfl⟩ | ⟨e, he, _, rfl⟩
    · rw [decideLocalAction_relativePath] at hpa
      subst hpa
      rw [decideLocalAction_of_remote_none_known hr' hw']
      exact ⟨rfl, rfl⟩
    · exfalso
      rw [decideRemoteAction_relativePath] at hpa
      have : p ∈ r.entries.map Prod.fst := List.mem_map.mpr ⟨e, he, hpa⟩
      have := (lookupFile_isSome_iff _ _).mpr this
      rw [hr'] at this
      exact Bool.noConfusion this

/-- C6 witness: with local and last_known holding "a" and remote empty,
the engine uploads "a" with reason "deleted remotely, exists locally". -/
theorem computeSyncActions_resurrects_remote_deletion_witness :
    (∃ a ∈ computeSyncActions manifestLocalA emptyManifest manifestLocalA,
      a.relativePath = "a" ∧ a.operation = SyncOp.upload ∧
        a.reason = "deleted remotely, exists locally") ∧
      ∀ a ∈ computeSyncActions manifestLocalA emptyManifest manifestLocalA,
        a.relativePath = "a" →
          a.operation = SyncOp.upload ∧ a.reason = "deleted remotely, exists locally" :=
  computeSyncActions_resurrects_remote_deletion manifestLocalA emptyManifest manifestLocalA
    "a" fileShaA rfl rfl (by decide)


theorem decideLocalAction_conflict {r lk : List (String × FileInfo)} {p : String}
    {lf rf : FileInfo} (hr : lookupFile r p = some rf)
    (hck : lf.checksum ≠ rf.checksum)
    (hch : ∀ w, lookupFile lk p = some w →
      lf.checksum ≠ w.checksum ∧ rf.checksum ≠ w.checksum) :
    (rf.modTime < lf.modTime → (decideLocalAction r lk p lf).operation = SyncOp.upload) ∧
      (lf.modTime < rf.modTime → (decideLocalAction r lk p lf).operation = SyncOp.download) := by
  unfold decideLocalAction
  rw [hr]
  dsimp only
  rw [if_pos hck]
  rcases hlk : lookupFile lk p with _ | w
  · dsimp only
    constructor
    · intro h
      rw [if_pos h]
    · intro h
      rw [if_neg (lt_asymm h)]
  · dsimp only
    rcases hch w hlk with ⟨h1, h2⟩
    rw [if_neg (fun hc => h2 hc.2), if_neg (fun hc => h1 hc.1)]
    constructor
    · intro h
      rw [if_pos h]
    · intro h
      rw [if_neg (lt_asymm h)]

theorem entry_val_of_nodup {l : Manifest} {p : String} {lf : FileInfo}
    (hnd : l.keys.Nodup) (hl : l.get p = some lf) {e : String × FileInfo}
    (he : e ∈ l.entries) (hp : e.1 = p) : e.2 = lf := by
  have hm : (p, e.2) ∈ l.entries := by
    rw [← hp]
    exact he
  have := lookupFile_of_nodup_mem hnd hm
  have hl' : lookupFile l.entries p = some lf := hl
  rw [hl'] at this
  exact (Option.some_inj.mp this).symm

/-- C2: for a path present in both inventories with unequal fingerprints,
where both sides changed relative to `last_known` (or the path is absent
from it), the engine decides by modification time: the strictly later side
wins — local strictly later gives `upload`, remote strictly later gives
`download`. -/
theorem computeSyncActions_both_changed_newer_wins (l r lk : Manifest) (p : String)
    (lf rf : FileInfo) (hnd : l.keys.Nodup)
    (hl : l.get p = some lf) (hr : r.get p = some rf)
    (hck : lf.checksum ≠ rf.checksum)
    (hch : ∀ w, lk.get p = some w →
      lf.checksum ≠ w.checksum ∧ rf.checksum ≠ w.checksum) :
    (∃ a ∈ computeSyncActions l r lk, a.relativePath = p) ∧
      ∀ a ∈ computeSyncActions l r lk, a.relativePath = p →
        (rf.modTime < lf.modTime → a.operation = SyncOp.upload) ∧
        (lf.modTime < rf.modTime → a.operation = SyncOp.download) := by
  have hl' : lookupFile l.entries p = some lf := hl
  have hr' : lookupFile r.entries p = some rf := hr
  constructor
  · refine ⟨decideLocalAction r.entries lk.entries p lf, ?_, ?_⟩
    · exact (mem_computeSyncActions_iff l r lk _).mpr
        (Or.inl ⟨(p, lf), lookupFile_eq_some_mem hl', rfl⟩)
    · exact decideLocalAction_relativePath _ _ _ _
  · intro a ha hpa
    rcases (mem_computeSyncActions_iff l r lk a).mp ha with ⟨e, he, rfl⟩ | ⟨e, he, hnone, rfl⟩
    · rw [decideLocalAction_relativePath] at hpa
      have hv : e.2 = lf := entry_val_of_nodup hnd hl he hpa
      rw [hpa, hv]
      exact decideLocalAction_conflict hr' hck hch
    · exfalso
      rw [decideRemoteAction_relativePath] at hpa
      rw [hpa, hl'] at hnone
      exact Option.noConfusion hnone

/-- C2 witness: path "a" differs on both sides, both changed relative to
an empty last_known, and the remote record is strictly newer, so the
decided action is a download. -/
theorem computeSyncActions_both_changed_newer_wins_witness :
    (∃ a ∈ computeSyncActions manifestLocalA manifestRemoteA emptyManifest,
      a.relativePath = "a") ∧
      ∀ a ∈ computeSyncActions manifestLocalA manifestRemoteA emptyManifest,
        a.relativePath = "a" →
          (fileEtagA.modTime < fileShaA.modTime → a.operation = SyncOp.upload) ∧
          (fileShaA.modTime < fileEtagA.modTime → a.operation = SyncOp.download) :=
  computeSyncActions_both_changed_newer_wins manifestLocalA manifestRemoteA emptyManifest
    "a" fileShaA fileEtagA (by decide) rfl rfl (by decide)
    (fun w h => Option.noConfusion h)

theorem map_local_paths (R lk : List (String × FileInfo)) :
    ∀ L : List (String × FileInfo),
      (L.map (fun e => decideLocalAction R lk e.1 e.2)).map SyncAction.relativePath =
        L.map Prod.fst
  | [] => rfl
  | e :: rest => by
    rw [List.map_cons, List.map_cons, List.map_cons, map_local_paths R lk rest,
      decideLocalAction_relativePath]

theorem filterMap_remote_paths (L lk : List (String × FileInfo)) :
    ∀ R : List (String × FileInfo),
      (R.filterMap (fun e => if (lookupFile L e.1).isSome then none
        else some (decideRemoteAction lk e.1 e.2))).map SyncAction.relativePath =
        (R.filter fun e => (lookupFile L e.1).isNone).map Prod.fst
  | [] => rfl
  | e :: rest => by
    rw [List.filterMap_cons, List.filter_cons]
    rcases ho : lookupFile L e.1 with _ | v
    · simp only [ho, Option.isSome_none, Option.isNone_none, Bool.false_eq_true, if_false,
        if_true, List.map_cons, decideRemoteAction_relativePath]
      rw [filterMap_remote_paths L lk rest]
    · simp only [ho, Option.isSome_some, Option.isNone_some, Bool.false_eq_true, if_true,
        if_false]
      exact filterMap_remote_paths L lk rest

theorem computeSyncActions_paths (l r lk : Manifest) :
    (computeSyncActions l r lk).map SyncAction.relativePath =
      l.keys ++ (r.entries.filter fun e => (lookupFile l.entries e.1).isNone).map Prod.fst := by
  unfold computeSyncActions
  rw [List.map_append, map_local_paths, filterMap_remote_paths]
  rfl

/-- C1 counterexample: with empty local and remote inventories and a
last_known inventory holding path "a", the engine returns no action at
all, so a path present in the union of the three inventories' key sets
(here, present only in `last_known`) is not covered by any decision. -/
theorem computeSyncActions_misses_lastKnown_only_path :
    "a" ∈ manifestLocalA.keys ∧
      computeSyncActions emptyManifest emptyManifest manifestLocalA = [] :=
  ⟨by decide, rfl⟩

/-- C1 (amended): with the Go-map key uniqueness invariant on the local
and remote inventories, the engine decides every path in the union of the
local and remote key sets exactly once — no path is decided twice — but
paths present only in `last_known` receive no action, so the decided paths
cover the union of the local and remote key sets, not of all three. -/
theorem computeSyncActions_once_per_local_remote_path (l r lk : Manifest)
    (hnl : l.keys.Nodup) (hnr : r.keys.Nodup) :
    ((computeSyncActions l r lk).map SyncAction.relativePath).Nodup ∧
      ∀ p, p ∈ (computeSyncActions l r lk).map SyncAction.relativePath ↔
        (p ∈ l.keys ∨ p ∈ r.keys) := by
  rw [computeSyncActions_paths]
  constructor
  · rw [List.nodup_append]
    refine ⟨hnl, ?_, ?_⟩
    · exact List.Nodup.sublist (List.Sublist.map Prod.fst (List.filter_sublist _)) hnr
    · intro p hp1 hp2
      rcases List.mem_map.mp hp2 with ⟨e, hef, rfl⟩
      have hno := List.of_mem_filter hef
      have hkey : e.1 ∈ l.entries.map Prod.fst := hp1
      have := (lookupFile_isSome_iff l.entries e.1).mpr hkey
      rw [Option.isNone_iff_eq_none.mp hno] at this
      exact Bool.noConfusion this
  · intro p
    rw [List.mem_append]
    constructor
    · rintro (h | h)
      · exact Or.inl h
      · rcases List.mem_map.mp h with ⟨e, hef, rfl⟩
        exact Or.inr (List.mem_map.mpr ⟨e, List.mem_of_mem_filter hef, rfl⟩)
    · rintro (h | h)
      · exact Or.inl h
      · by_cases hpl : p ∈ l.keys
        · exact Or.inl hpl
        · right
          rcases List.mem_map.mp h with ⟨e, he, rfl⟩
          refine List.mem_map.mpr ⟨e, List.mem_filter.mpr ⟨he, ?_⟩, rfl⟩
          rw [(lookupFile_eq_none_iff l.entries e.1).mpr hpl]
          rfl

/-- C1 witness: concrete inventories with unique keys, on which the action
list decides exactly the union of the local and remote key sets. -/
theorem computeSyncActions_once_per_local_remote_path_witness :
    ((computeSyncActions manifestLocalA manifestRemoteA emptyManifest).map
      SyncAction.relativePath).Nodup ∧
      ∀ p, p ∈ (computeSyncActions manifestLocalA manifestRemoteA emptyManifest).map
        SyncAction.relativePath ↔
          (p ∈ manifestLocalA.keys ∨ p ∈ manifestRemoteA.keys) :=
  computeSyncActions_once_per_local_remote_path manifestLocalA manifestRemoteA emptyManifest
    (by decide) (by decide)


theorem decideLocalAction_local_unchanged {r lk : List (String × FileInfo)} {p : String}
    {lf rf : FileInfo} (hr : lookupFile r p = some rf) (hlk : lookupFile lk p = some lf) :
    decideLocalAction r lk p lf =
      if lf.checksum = rf.checksum then ⟨.skip, lf, p, "files identical"⟩
      else ⟨.download, rf, p, "remote file modified"⟩ := by
  unfold decideLocalAction
  rw [hr]
  dsimp only
  by_cases h : lf.checksum = rf.checksum
  · rw [if_neg (not_not_intro h), if_pos h]
  · rw [if_pos h, hlk]
    dsimp only
    rw [if_neg (fun hc => hc.1 rfl), if_pos ⟨rfl, fun he => h he.symm⟩, if_neg h]

/-- C3 counterexample: a second reconciliation with no intervening
changes, where the manifest saved by a first push run (the local inventory
with the SHA-256 checksum "sha256-of-a") serves as last_known while the
remote inventory carries the S3 ETag checksum "etag-of-a", yields a
download action with reason "remote file modified" — not an all-skip
list. -/
theorem computeSyncActions_second_run_not_all_skip :
    computeSyncActions manifestLocalA manifestRemoteA manifestLocalA =
      [⟨.download, fileEtagA, "a", "remote file modified"⟩] ∧
      ∃ a ∈ computeSyncActions manifestLocalA manifestRemoteA manifestLocalA,
        a.operation ≠ SyncOp.skip :=
  ⟨rfl, by decide⟩

/-- C3 (amended): when the manifest saved by a push run — the local
inventory — serves as last_known for a second run with no intervening
changes (and local and remote cover the same paths after the completed
first run), the second run produces no upload, and its action list is
all-skip iff the remote fingerprint equals the local one on every common
path.  With S3 ETag fingerprints compared against SHA-256 fingerprints the
common paths instead yield download actions ("remote file modified"), so
the all-skip guarantee does not hold for a push-saved manifest. -/
theorem computeSyncActions_second_run_no_upload_all_skip_iff (l r lk : Manifest)
    (hlk : lk.entries = l.entries) (hnd : l.keys.Nodup)
    (hcov : ∀ p, (l.get p).isSome → (r.get p).isSome)
    (hcov2 : ∀ p, (r.get p).isSome → (l.get p).isSome) :
    (∀ a ∈ computeSyncActions l r lk, a.operation ≠ SyncOp.upload) ∧
      ((∀ a ∈ computeSyncActions l r lk, a.operation = SyncOp.skip) ↔
        ∀ p lf rf, l.get p = some lf → r.get p = some rf →
          lf.checksum = rf.checksum) := by
  have hAct : ∀ a ∈ computeSyncActions l r lk,
      ∃ e ∈ l.entries, a = decideLocalAction r.entries lk.entries e.1 e.2 := by
    intro a ha
    rcases (mem_computeSyncActions_iff l r lk a).mp ha with h | ⟨e, he, hnone, _⟩
    · exact h
    · exfalso
      have h1 : (r.get e.1).isSome :=
        (lookupFile_isSome_iff _ _).mpr (List.mem_map.mpr ⟨e, he, rfl⟩)
      have h2 := hcov2 e.1 h1
      have h3 : l.get e.1 = none := hnone
      rw [h3] at h2
      exact Bool.noConfusion h2
  have hEval : ∀ e ∈ l.entries, ∃ rf, r.get e.1 = some rf ∧
      decideLocalAction r.entries lk.entries e.1 e.2 =
        if e.2.checksum = rf.checksum then ⟨.skip, e.2, e.1, "files identical"⟩
        else ⟨.download, rf, e.1, "remote file modified"⟩ := by
    intro e he
    have hle : l.get e.1 = some e.2 := by
      have hm : (e.1, e.2) ∈ l.entries := he
      exact lookupFile_of_nodup_mem hnd hm
    have hrs : (r.get e.1).isSome := hcov e.1 (by rw [hle]; rfl)
    rcases Option.isSome_iff_exists.mp hrs with ⟨rf, hrf⟩
    refine ⟨rf, hrf, ?_⟩
    have hlke : lookupFile lk.entries e.1 = some e.2 := by
      rw [hlk]
      exact hle
    exact decideLocalAction_local_unchanged hrf hlke
  constructor
  · intro a ha
    rcases hAct a ha with ⟨e, he, rfl⟩
    rcases hEval e he with ⟨rf, -, heq⟩
    rw [heq]
    by_cases h : e.2.checksum = rf.checksum
    · rw [if_pos h]
      exact fun hc => SyncOp.noConfusion hc
    · rw [if_neg h]
      exact fun hc => SyncOp.noConfusion hc
  · constructor
    · intro hall p lf rf hlf hrf
      have hm : (p, lf) ∈ l.entries := lookupFile_eq_some_mem hlf
      have hmem : decideLocalAction r.entries lk.entries p lf ∈ computeSyncActions l r lk :=
        (mem_computeSyncActions_iff l r lk _).mpr (Or.inl ⟨(p, lf), hm, rfl⟩)
      have hop := hall _ hmem
      rcases hEval (p, lf) hm with ⟨rf2, hrf2, heq⟩
      have hrr : rf2 = rf := by
        rw [hrf] at hrf2
        exact (Option.some_inj.mp hrf2).symm
      subst hrr
      rw [heq] at hop
      by_cases h : lf.checksum = rf2.checksum
      · exact h
      · rw [if_neg h] at hop
        exact absurd hop (fun hc => SyncOp.noConfusion hc)
    · intro hsum a ha
      rcases hAct a ha with ⟨e, he, rfl⟩
      rcases hEval e he with ⟨rf, hrf, heq⟩
      have hle : l.get e.1 = some e.2 := lookupFile_of_nodup_mem hnd he
      have hck := hsum e.1 e.2 rf hle hrf
      rw [heq, if_pos hck]

/-- C3 witness: a run where local, remote and last_known coincide
satisfies the amended theorem's hypotheses; its action list has no upload
and is all-skip exactly because every common fingerprint matches. -/
theorem computeSyncActions_second_run_no_upload_all_skip_iff_witness :
    (∀ a ∈ computeSyncActions manifestLocalA manifestLocalA manifestLocalA,
      a.operation ≠ SyncOp.upload) ∧
      ((∀ a ∈ computeSyncActions manifestLocalA manifestLocalA manifestLocalA,
        a.operation = SyncOp.skip) ↔
        ∀ p lf rf, manifestLocalA.get p = some lf → manifestLocalA.get p = some rf →
          lf.checksum = rf.checksum) :=
  computeSyncActions_second_run_no_upload_all_skip_iff manifestLocalA manifestLocalA
    manifestLocalA rfl (by decide) (fun _ h => h) (fun _ h => h)


/-- C7 counterexample: the trace of filesystem operations `SaveManifest`
performs is exactly a MkdirAll followed by one direct write of the
manifest path — it contains the direct write of the final path and no
rename at all, so the write does not go through a scoped temporary file
followed by an atomic rename. -/
theorem saveManifest_writes_final_path_directly :
    saveManifestOps "/data/.s3sync" "/data/.s3sync/manifest.json" "{}" =
      [FsOp.mkdirAll "/data/.s3sync",
        FsOp.writeFile "/data/.s3sync/manifest.json" "{}"] ∧
      FsOp.writeFile "/data/.s3sync/manifest.json" "{}" ∈
        saveManifestOps "/data/.s3sync" "/data/.s3sync/manifest.json" "{}" :=
  ⟨rfl, by decide⟩

/-- C7 (amended): `SaveManifest` ensures the manifest directory exists and
then writes the serialized manifest with a single direct `os.WriteFile` to
the manifest path — no temporary file, no rename, not an atomic replace —
so a crash mid-write can leave content at the manifest path (here the
truncated empty file) that is neither the previous manifest nor the new
one, visible to a subsequent `LoadManifest`. -/
theorem saveManifest_direct_write_partial_visible (dir path data : String)
    (old : Option String) (hdata : data ≠ "") (hold : old ≠ some "") :
    FsOp.writeFile path data ∈ saveManifestOps dir path data ∧
      (∀ src dst, FsOp.rename src dst ∉ saveManifestOps dir path data) ∧
      ¬ atomicReplaceSaveSpec (saveManifestOps dir path data) path ∧
      ∃ c ∈ saveManifestCrashStates old data, c ≠ old ∧ c ≠ some data := by
  refine ⟨by simp [saveManifestOps], ?_, ?_, ?_⟩
  · intro src dst h
    simp [saveManifestOps] at h
  · rintro ⟨h1, -⟩
    exact h1 data (by simp [saveManifestOps])
  · refine ⟨some "", ?_, ?_, ?_⟩
    · unfold saveManifestCrashStates writeFileCrashStates
      exact List.mem_cons_of_mem _
        (List.mem_map.mpr ⟨0, List.mem_range.mpr (Nat.succ_pos _), rfl⟩)
    · exact fun h => hold h.symm
    · intro h
      exact hdata (Option.some_inj.mp h).symm

/-- C7 witness: a concrete save of "{}" over an existing manifest "OLD"
satisfies the hypotheses, and indeed exhibits a partially-written state. -/
theorem saveManifest_direct_write_partial_visible_witness :
    FsOp.writeFile "/d/.s3sync/manifest.json" "{}" ∈
      saveManifestOps "/d/.s3sync" "/d/.s3sync/manifest.json" "{}" ∧
      (∀ src dst, FsOp.rename src dst ∉
        saveManifestOps "/d/.s3sync" "/d/.s3sync/manifest.json" "{}") ∧
      ¬ atomicReplaceSaveSpec
        (saveManifestOps "/d/.s3sync" "/d/.s3sync/manifest.json" "{}")
        "/d/.s3sync/manifest.json" ∧
      ∃ c ∈ saveManifestCrashStates (some "OLD") "{}", c ≠ some "OLD" ∧ c ≠ some "{}" :=
  saveManifest_direct_write_partial_visible "/d/.s3sync" "/d/.s3sync/manifest.json" "{}"
    (some "OLD") (by decide) (by decide)

theorem runTransfers_eq_none_iff (op : SyncOp) (f : String → Bool) :
    ∀ acts : List SyncAction, runTransfers op f acts = none ↔
      ∀ a ∈ acts, a.operation = op → f a.relativePath = true
  | [] => by simp [runTransfers]
  | a :: rest => by
    rw [runTransfers]
    by_cases hop : a.operation = op
    · rw [if_pos hop]
      by_cases hf : f a.relativePath = true
      · rw [if_pos hf, runTransfers_eq_none_iff op f rest]
        constructor
        · intro h b hb hbop
          rcases List.mem_cons.mp hb with rfl | hb2
          · exact hf
          · exact h b hb2 hbop
        · intro h b hb hbop
          exact h b (List.mem_cons_of_mem _ hb) hbop
      · rw [if_neg hf]
        constructor
        · intro h
          exact Option.noConfusion h
        · intro h
          exact absurd (h a (List.mem_cons_self _ _) hop) hf
    · rw [if_neg hop, runTransfers_eq_none_iff op f rest]
      constructor
      · intro h b hb hbop
        rcases List.mem_cons.mp hb with rfl | hb2
        · exact absurd hbop hop
        · exact h b hb2 hbop
      · intro h b hb hbop
        exact h b (List.mem_cons_of_mem _ hb) hbop

theorem transfer_count_zero_iff (acts : List SyncAction) (op : SyncOp) :
    (acts.filter (fun a => a.operation = op)).length = 0 ↔
      ∀ a ∈ acts, a.operation ≠ op := by
  rw [List.length_eq_zero, List.filter_eq_nil_iff]
  simp

theorem finishRun_characterization (acts : List SyncAction) (op : SyncOp)
    (ok : String → Bool) (dry : Bool) (m : Manifest) :
    ((finishRun acts op ok dry m).saved ≠ none ↔
      (dry = false ∧ (∃ a ∈ acts, a.operation = op) ∧
        ∀ a ∈ acts, a.operation = op → ok a.relativePath = true)) ∧
      (∀ m2, (finishRun acts op ok dry m).saved = some m2 → m2 = m) ∧
      ((finishRun acts op ok dry m).err ≠ none →
        (finishRun acts op ok dry m).saved = none) := by
  unfold finishRun
  cases dry with
  | true =>
    rw [if_pos rfl]
    refine ⟨?_, ?_, ?_⟩
    · constructor
      · intro h
        exact absurd rfl h
      · rintro ⟨h, -, -⟩
        exact Bool.noConfusion h
    · intro m2 h
      exact Option.noConfusion h
    · intro _
      rfl
  | false =>
    rw [if_neg (fun hc => Bool.noConfusion hc)]
    by_cases h0 : (acts.filter (fun a => a.operation = op)).length = 0
    · rw [if_pos h0]
      have hno : ∀ a ∈ acts, a.operation ≠ op := (transfer_count_zero_iff acts op).mp h0
      refine ⟨?_, ?_, ?_⟩
      · constructor
        · intro h
          exact absurd rfl h
        · rintro ⟨-, ⟨a, ha, hop⟩, -⟩
          exact (hno a ha hop).elim
      · intro m2 h
        exact Option.noConfusion h
      · intro _
        rfl
    · rw [if_neg h0]
      cases hrt : runTransfers op ok acts with
      | none =>
        refine ⟨?_, ?_, ?_⟩
        · constructor
          · intro _
            refine ⟨rfl, ?_, (runTransfers_eq_none_iff op ok acts).mp hrt⟩
            have hne : acts.filter (fun a => a.operation = op) ≠ [] := by
              intro he
              rw [he] at h0
              exact h0 rfl
            rcases List.exists_mem_of_ne_nil _ hne with ⟨a, ha⟩
            rcases List.mem_filter.mp ha with ⟨hmem, hpa⟩
            exact ⟨a, hmem, by simpa using hpa⟩
          · intro _
            exact fun h => Option.noConfusion h
        · intro m2 h
          exact (Option.some_inj.mp h).symm
        · intro h
          exact absurd rfl h
      | some p =>
        refine ⟨?_, ?_, ?_⟩
        · constructor
          · intro h
            exact absurd rfl h
          · rintro ⟨-, -, hall⟩
            have := (runTransfers_eq_none_iff op ok acts).mpr hall
            rw [hrt] at this
            exact Option.noConfusion this
        · intro m2 h
          exact Option.noConfusion h
        · intro _
          rfl

/-- C8 counterexample: a push run whose action list is all-skip (local and
remote already in sync) completes with no transfer error, yet returns
early and never calls `SaveManifest`: no manifest is persisted, contrary
to "including runs whose actions are all skips". -/
theorem performPush_all_skip_run_saves_nothing :
    (∀ a ∈ computeSyncActions manifestLocalA manifestRemoteSameA manifestLocalA,
      a.operation = SyncOp.skip) ∧
      performPush manifestLocalA manifestRemoteSameA manifestLocalA "bkt"
        (fun _ => true) false = ⟨none, none⟩ :=
  ⟨by decide, rfl⟩

/-- C8 (amended): a push (resp. pull) run hands a manifest to
`SaveManifest` iff it is not a dry run, at least one upload (resp.
download) action exists, and every upload (resp. download) transfer
succeeds; the saved manifest is then the local (resp. remote) inventory
with the target bucket set.  Any transfer failure aborts before the save,
and an all-skip run also returns without saving. -/
theorem performRun_saves_iff_transfers_succeed_and_nonzero
    (localScan remoteM lastM : Manifest) (b : String)
    (upOk dnOk : String → Bool) (dry : Bool) :
    ((performPush localScan remoteM lastM b upOk dry).saved ≠ none ↔
      (dry = false ∧
        (∃ a ∈ computeSyncActions { localScan with bucket := b } remoteM lastM,
          a.operation = SyncOp.upload) ∧
        ∀ a ∈ computeSyncActions { localScan with bucket := b } remoteM lastM,
          a.operation = SyncOp.upload → upOk a.relativePath = true)) ∧
      (∀ m, (performPush localScan remoteM lastM b upOk dry).saved = some m →
        m = { localScan with bucket := b }) ∧
      ((performPush localScan remoteM lastM b upOk dry).err ≠ none →
        (performPush localScan remoteM lastM b upOk dry).saved = none) ∧
      ((performPull localScan remoteM lastM b dnOk dry).saved ≠ none ↔
        (dry = false ∧
          (∃ a ∈ computeSyncActions localScan { remoteM with bucket := b } lastM,
            a.operation = SyncOp.download) ∧
          ∀ a ∈ computeSyncActions localScan { remoteM with bucket := b } lastM,
            a.operation = SyncOp.download → dnOk a.relativePath = true)) ∧
      (∀ m, (performPull localScan remoteM lastM b dnOk dry).saved = some m →
        m = { remoteM with bucket := b }) ∧
      ((performPull localScan remoteM lastM b dnOk dry).err ≠ none →
        (performPull localScan remoteM lastM b dnOk dry).saved = none) := by
  have hp := finishRun_characterization
    (computeSyncActions { localScan with bucket := b } remoteM lastM)
    SyncOp.upload upOk dry { localScan with bucket := b }
  have hq := finishRun_characterization
    (computeSyncActions localScan { remoteM with bucket := b } lastM)
    SyncOp.download dnOk dry { remoteM with bucket := b }
  exact ⟨hp.1, hp.2.1, hp.2.2, hq.1, hq.2.1, hq.2.2⟩


theorem mem_scan_of_nonhidden (rootDir : String) {tree : List DiskFile} {f : DiskFile}
    (hmem : f ∈ tree) (hleaf : hiddenLeaf f = false) :
    relPathOf f ∈ (scanDirectoryWithInfo rootDir tree).map FileInfo.relativePath := by
  refine List.mem_map.mpr
    ⟨⟨rootDir ++ "/" ++ relPathOf f, f.size, f.modTime, f.checksum, relPathOf f⟩, ?_, rfl⟩
  refine List.mem_filterMap.mpr ⟨f, hmem, ?_⟩
  rw [if_neg]
  rw [hleaf]
  exact fun hc => Bool.noConfusion hc

/-- C9 counterexample: "Thumbs.db" is in the default configured exclusion
list (`SyncConfig.ExcludeFiles`), yet a scan of a tree containing it still
includes it in the inventory: `ScanDirectoryWithInfo` never consults the
configured exclusion patterns. -/
theorem scan_includes_configured_excluded_file :
    "Thumbs.db" ∈ defaultSyncConfig.excludeFiles ∧
      "Thumbs.db" ∈ (scanDirectoryWithInfo "/root"
        [⟨["Thumbs.db"], 1, 0, "sha256-of-thumbs"⟩]).map FileInfo.relativePath := by
  constructor
  · decide
  · decide

/-- C9 (amended): the inventory `ScanDirectoryWithInfo` produces covers
exactly the regular files reachable under the root whose own leaf name
does not begin with the reserved marker character; the configured
exclusion list is not applied, so files matching configured exclusion
patterns are included all the same. -/
theorem scan_covers_nonhidden_exactly (rootDir : String) (tree : List DiskFile) :
    (∀ f ∈ tree, hiddenLeaf f = false →
      relPathOf f ∈ (scanDirectoryWithInfo rootDir tree).map FileInfo.relativePath) ∧
      ∀ fi ∈ scanDirectoryWithInfo rootDir tree,
        ∃ f ∈ tree, hiddenLeaf f = false ∧ fi.relativePath = relPathOf f ∧
          fi.checksum = f.checksum ∧ fi.size = f.size ∧ fi.modTime = f.modTime := by
  constructor
  · intro f hf hh
    exact mem_scan_of_nonhidden rootDir hf hh
  · intro fi hfi
    rcases List.mem_filterMap.mp hfi with ⟨f, hf, hg⟩
    refine ⟨f, hf, ?_⟩
    rcases hh : hiddenLeaf f with _ | _
    · rw [if_neg] at hg
      · cases hg
        exact ⟨rfl, rfl, rfl, rfl, rfl⟩
      · rw [hh]
        exact fun hc => Bool.noConfusion hc
    · rw [if_pos] at hg
      · exact Option.noConfusion hg
      · rw [hh]

/-- C9 witness: a two-file tree in which the non-hidden file is covered
and everything covered traces back to a non-hidden file. -/
theorem scan_covers_nonhidden_exactly_witness :
    (∀ f ∈ [(⟨["docs", "a.txt"], 3, 1, "sha256-of-doc"⟩ : DiskFile),
        ⟨[".hidden"], 1, 1, "sha256-of-hidden"⟩], hiddenLeaf f = false →
      relPathOf f ∈ (scanDirectoryWithInfo "/root"
        [⟨["docs", "a.txt"], 3, 1, "sha256-of-doc"⟩,
          ⟨[".hidden"], 1, 1, "sha256-of-hidden"⟩]).map FileInfo.relativePath) ∧
      ∀ fi ∈ scanDirectoryWithInfo "/root"
        [⟨["docs", "a.txt"], 3, 1, "sha256-of-doc"⟩,
          ⟨[".hidden"], 1, 1, "sha256-of-hidden"⟩],
        ∃ f ∈ [(⟨["docs", "a.txt"], 3, 1, "sha256-of-doc"⟩ : DiskFile),
          ⟨[".hidden"], 1, 1, "sha256-of-hidden"⟩],
          hiddenLeaf f = false ∧ fi.relativePath = relPathOf f ∧
            fi.checksum = f.checksum ∧ fi.size = f.size ∧ fi.modTime = f.modTime :=
  scan_covers_nonhidden_exactly "/root"
    [⟨["docs", "a.txt"], 3, 1, "sha256-of-doc"⟩, ⟨[".hidden"], 1, 1, "sha256-of-hidden"⟩]

/-- C10: `ScanDirectoryWithInfo` tests only the file's own leaf name for
the hidden marker, not its ancestor directories: a file whose leaf does
not start with the marker character but which lies under a dot-directory
is included in the scan, and `BuildLocalManifest` keys it in the local
inventory under its relative path. -/
theorem scan_checks_only_leaf_name (rootDir : String) (tree : List DiskFile)
    (f : DiskFile) (hmem : f ∈ tree) (hleaf : hiddenLeaf f = false)
    (hdot : ∃ seg ∈ f.relSegments.dropLast, seg.toList.head? = some '.') :
    relPathOf f ∈ (scanDirectoryWithInfo rootDir tree).map FileInfo.relativePath ∧
      ((buildLocalManifest rootDir tree).get (relPathOf f)).isSome := by
  have h1 := mem_scan_of_nonhidden rootDir hmem hleaf
  refine ⟨h1, ?_⟩
  have hkeys : (buildLocalManifest rootDir tree).entries.map Prod.fst =
      (scanDirectoryWithInfo rootDir tree).map FileInfo.relativePath := by
    unfold buildLocalManifest Manifest.entries
    rw [Option.getD_some, List.map_map]
    rfl
  rw [Manifest.get, lookupFile_isSome_iff, hkeys]
  exact h1

/-- C10 witness: the tool's own manifest file `.s3sync/manifest.json` —
leaf "manifest.json" under the dot-directory ".s3sync" inside the sync
root — appears in the scan and in the local inventory built by
`BuildLocalManifest`. -/
theorem scan_checks_only_leaf_name_witness :
    ".s3sync/manifest.json" ∈
      (scanDirectoryWithInfo "/sync" [manifestDiskFile]).map FileInfo.relativePath ∧
      ((buildLocalManifest "/sync" [manifestDiskFile]).get ".s3sync/manifest.json").isSome :=
  scan_checks_only_leaf_name "/sync" [manifestDiskFile] manifestDiskFile
    (List.mem_singleton.mpr rfl) rfl ⟨".s3sync", by decide, rfl⟩

end S3Sync
